import Mathlib

/-!
Verification of the trend-log ReadRange encoder (`rr_trend_log_encode`,
`apps/bacnetStackd/trendlog_override.c`) and of the trend-log manager's
circular buffer (`apps/bacnetStackd/trendlog_manager.c`).

Embedding conventions:
* The vendored byte-level `encode_*` primitives of the BACnet stack
  library are abstracted as symbolic tokens, one token per call.  Every
  primitive writes at least one byte into the APDU, so "positive encoded
  length" corresponds to a non-empty token list.
* Machine integers are `Nat`/`Int`; the places where the source mixes
  `uint32_t` and `int32_t` are made explicit (`toInt32`, `neg32`, the
  `% 2 ^ 32` wrap in the `FirstSequence` computation).
* Record access through the library call `Trend_Log_Get_Record` is an
  abstract `Int → Option` field of the log-info structure, following the
  spec's collaborator contract (`get_record(id, logical_index)` returns a
  record or null).
* The `float` payload of a real-valued sample is only ever copied, never
  computed with, so it is carried opaquely (as its 32-bit pattern, or as
  a type parameter in the manager model).
-/

namespace BacnetTL

/-- Enumerant `OBJECT_TRENDLOG` of the BACnet object-type enumeration. -/
def OBJECT_TRENDLOG : Nat := 20

/-- Property identifier `PROP_LOG_BUFFER`. -/
def PROP_LOG_BUFFER : Nat := 131

/-- Tagged union `TL_DATA_REC.Datum` together with its `ucRecType` tag.
`unknown` stands for any tag outside the known `TL_TYPE_*` enumerants
(the encoder's `default` branch). -/
inductive TLDatum where
  | sign (v : Int)
  | unsign (v : Nat)
  | real (bits : Nat)
  | enum (v : Nat)
  | bool (b : Bool)
  | null
  | unknown
deriving DecidableEq

/-- One stored log record (`TL_DATA_REC`): timestamp in seconds since
the epoch (`time_t tTimeStamp`), tagged value, packed status byte
`ucStatus`. -/
structure TLRec where
  tTimeStamp : Int
  datum : TLDatum
  ucStatus : Nat
deriving DecidableEq

/-- Fields of the vendored `TL_LOG_INFO` read by `rr_trend_log_encode`,
plus the record accessor: `gets j` models the library call
`Trend_Log_Get_Record(instance, j)`, which may return null for any
index. -/
structure LogInfo where
  ulRecordCount : Nat
  ulTotalRecordCount : Nat
  gets : Int → Option TLRec

/-- Well-formedness of the counters: both are `uint32_t` values, and the
record count is bounded by the configured capacity, which is far below
`2 ^ 31`, so the source's casts of `ulRecordCount` to `int32_t` are
value-preserving. -/
def LogInfo.wf (info : LogInfo) : Prop :=
  info.ulRecordCount < 2 ^ 31 ∧ info.ulTotalRecordCount < 2 ^ 32

/-- Request-type enumerants of `BACNET_READ_RANGE_REQUEST_TYPE`;
`readAll` stands for every remaining enumerant, all of which reach the
encoder's `default` branch. -/
inductive RRRequestType where
  | byPosition
  | bySequence
  | byTime
  | readAll
deriving DecidableEq

/-- Fields of `BACNET_READ_RANGE_DATA` read by the encoder.  The `Range`
union is flattened: `RefIndex` is the `uint32_t` position reference,
`RefTime` the time reference already converted to seconds since the
epoch (as the source does via `datetime_seconds_since_epoch`),
`RefSeqNum` the sequence reference.  `Count` is the `int32_t` signed
count. -/
structure RRRequest where
  object_instance : Nat
  RequestType : RRRequestType
  RefIndex : Nat
  RefTime : Int
  RefSeqNum : Nat
  Count : Int

/-- Conversion of a `uint32_t` value to `int32_t` (two's complement), as
in `int32_t log_index = pRequest->Range.RefIndex`. -/
def toInt32 (n : Nat) : Int :=
  if n % 2 ^ 32 < 2 ^ 31 then ((n % 2 ^ 32 : Nat) : Int)
  else ((n % 2 ^ 32 : Nat) : Int) - 2 ^ 32

/-- Negation of an `int32_t` (`count = -count`); `INT32_MIN` is its own
negation in two's complement. -/
def neg32 (c : Int) : Int :=
  if c = -(2 ^ 31) then c else -c

/-- Symbolic output: one token per call to a vendored `encode_*`
primitive. -/
inductive Token where
  | objectId (ctx objType inst : Nat)
  | ctxUnsigned (ctx v : Nat)
  | ctxBits (ctx : Nat) (bits : List Bool)
  | openTag (tag : Nat)
  | closeTag (tag : Nat)
  | ctxDateTime (ctx : Nat) (t : Int)
  | appSigned (v : Int)
  | appUnsigned (v : Nat)
  | appReal (bits : Nat)
  | appEnum (v : Nat)
  | appBool (b : Bool)
  | appNull
deriving DecidableEq

/-- Error classes used by the encoder. -/
inductive ErrClass where
  | object
  | property
  | services
deriving DecidableEq

/-- Error codes used by the encoder. -/
inductive ErrCode where
  | unknownObject
  | invalidArrayIndex
  | invalidParameterDataType
deriving DecidableEq

/-- An error return (`BACNET_STATUS_ERROR` plus the `error_class` and
`error_code` fields written into the request descriptor).  On every
error path of the source the function returns before the first
`encode_*` call, so an error carries no output tokens. -/
abbrev RRError := ErrClass × ErrCode

/-- A successful return: the tokens written into the APDU and the
`ItemCount` / `FirstSequence` / result-flag fields written back into the
request descriptor. -/
structure RRResult where
  tokens : List Token
  ItemCount : Nat
  FirstSequence : Nat
  flagFirst : Bool
  flagLast : Bool
  flagMore : Bool
deriving DecidableEq

/-- Response header common to every success path: object id [0],
property id [1], result flags [2], item count [3]. -/
def headerTokens (inst : Nat) (first last more : Bool) (itemCount : Nat) : List Token :=
  [Token.objectId 0 OBJECT_TRENDLOG inst,
   Token.ctxUnsigned 1 PROP_LOG_BUFFER,
   Token.ctxBits 2 [first, last, more],
   Token.ctxUnsigned 3 itemCount]

/-- Empty-result shape shared by the three empty-success paths of the
source (empty log, empty by-time match, count clamped to zero): item
count 0, first sequence 0, flags first = last = true, more = false, and
an item-data opening tag immediately closed. -/
def emptyResult (inst : Nat) : RRResult :=
  { tokens := headerTokens inst true true false 0 ++ [Token.openTag 4, Token.closeTag 4],
    ItemCount := 0,
    FirstSequence := 0,
    flagFirst := true,
    flagLast := true,
    flagMore := false }

/-- Forward by-time scan (the `RR_BY_TIME` loop for `Count ≥ 0`): walk
logical indices `i, i + 1, …` for `fuel` steps, carrying the
`(found_start, found_end)` pair (`none` models `found_start == -1`).  A
fetched record with timestamp `≥ ref` extends the window; the loop
breaks once the window spans at least `cnt` indices. -/
def scanFwdAux (info : LogInfo) (ref cnt : Int) :
    Nat → Nat → Option (Nat × Nat) → Option (Nat × Nat)
  | 0, _, acc => acc
  | fuel + 1, i, acc =>
    match info.gets (i : Int) with
    | none => scanFwdAux info ref cnt fuel (i + 1) acc
    | some r =>
      if ref ≤ r.tTimeStamp then
        let acc1 : Nat × Nat :=
          match acc with
          | none => (i, i)
          | some (s, _) => (s, i)
        if cnt ≤ (acc1.2 : Int) - (acc1.1 : Int) + 1 then some acc1
        else scanFwdAux info ref cnt fuel (i + 1) (some acc1)
      else scanFwdAux info ref cnt fuel (i + 1) acc

/-- Backward by-time scan (the `RR_BY_TIME` loop for `Count < 0`): walk
logical indices `k - 1, k - 2, …, 0`, extending the window with records
of timestamp `≤ ref`, breaking once it spans at least `cnt` indices. -/
def scanBwdAux (info : LogInfo) (ref cnt : Int) :
    Nat → Option (Nat × Nat) → Option (Nat × Nat)
  | 0, acc => acc
  | k + 1, acc =>
    match info.gets (k : Int) with
    | none => scanBwdAux info ref cnt k acc
    | some r =>
      if r.tTimeStamp ≤ ref then
        let acc1 : Nat × Nat :=
          match acc with
          | none => (k, k)
          | some (_, e) => (k, e)
        if cnt ≤ (acc1.2 : Int) - (acc1.1 : Int) + 1 then some acc1
        else scanBwdAux info ref cnt k (some acc1)
      else scanBwdAux info ref cnt k acc

/-- Outcome of the range-resolution `switch`: either the by-time scan
found nothing (`found_start == -1`, an empty success), or a candidate
`(log_index, count)` pair still subject to the later `count ≤ 0`
check. -/
inductive Resolved where
  | empty
  | slice (log_index count : Int)
deriving DecidableEq

/-- The `switch (pRequest->RequestType)` of `rr_trend_log_encode`:
resolve the request to a candidate slice.  Reached only on a non-empty
log. -/
def resolveRange (info : LogInfo) (req : RRRequest) : Except RRError Resolved :=
  match req.RequestType with
  | .byPosition =>
    let li := toInt32 req.RefIndex
    let c := req.Count
    if li < 1 ∨ (info.ulRecordCount : Int) < li then
      .error (.property, .invalidArrayIndex)
    else
      let li := li - 1
      if c < 0 then
        let c := neg32 c
        let c := if li + 1 < c then li + 1 else c
        .ok (.slice (li - c + 1) c)
      else
        let c := if (info.ulRecordCount : Int) < li + c then (info.ulRecordCount : Int) - li else c
        .ok (.slice li c)
  | .byTime =>
    if req.Count < 0 then
      match scanBwdAux info req.RefTime (neg32 req.Count) info.ulRecordCount none with
      | none => .ok .empty
      | some (s, e) => .ok (.slice (s : Int) ((e : Int) - (s : Int) + 1))
    else
      match scanFwdAux info req.RefTime req.Count info.ulRecordCount 0 none with
      | none => .ok .empty
      | some (s, e) => .ok (.slice (s : Int) ((e : Int) - (s : Int) + 1))
  | .bySequence =>
    let c := if req.Count < 0 then neg32 req.Count else req.Count
    let c := if (info.ulRecordCount : Int) < c then (info.ulRecordCount : Int) else c
    .ok (.slice 0 c)
  | .readAll => .error (.services, .invalidParameterDataType)

/-- Encoding of the tagged `Datum` (the value `switch`); unknown tags
encode as null, as in the source's `default` branch. -/
def encodeDatum : TLDatum → Token
  | .sign v => .appSigned v
  | .unsign v => .appUnsigned v
  | .real b => .appReal b
  | .enum v => .appEnum v
  | .bool b => .appBool b
  | .null => .appNull
  | .unknown => .appNull

/-- The four status bits unpacked from `ucStatus` (masks 1, 2, 4, 8). -/
def statusBits (s : Nat) : List Bool :=
  [s &&& 1 ≠ 0, s &&& 2 ≠ 0, s &&& 4 ≠ 0, s &&& 8 ≠ 0]

/-- Tokens for one log record: opening tag [0], timestamp [0], logData
choice [1] wrapping the tagged value, statusFlags [2], closing tag. -/
def encodeRecord (r : TLRec) : List Token :=
  [Token.openTag 0, Token.ctxDateTime 0 r.tTimeStamp, Token.openTag 1,
   encodeDatum r.datum,
   Token.closeTag 1, Token.ctxBits 2 (statusBits r.ucStatus), Token.closeTag 0]

/-- Record-encoding loop: for each `i < cnt` fetch logical index
`log_index + i`; a failed fetch is skipped (`continue`), contributing no
tokens. -/
def encodeItems (info : LogInfo) (li : Int) (cnt : Nat) : List Token :=
  ((List.range cnt).map fun i : Nat =>
    match info.gets (li + (i : Int)) with
    | none => []
    | some r => encodeRecord r).flatten

/-- Success result of the main encoding path, as a function of the
resolved slice `(log_index, count)`: the descriptor fields `ItemCount`,
`FirstSequence` (computed in `uint32_t` arithmetic from the two
counters), the three result flags, and the serialized header, item data
and optional trailing first-sequence field. -/
def mainResult (info : LogInfo) (req : RRRequest) (li cnt : Int) : RRResult :=
  let c := cnt.toNat
  let firstSeq :=
    (info.ulTotalRecordCount + 2 ^ 32 - info.ulRecordCount + li.toNat + 1) % 2 ^ 32
  let first := decide (li = 0)
  let last := decide ((info.ulRecordCount : Int) ≤ li + cnt)
  let more := decide (li + cnt < (info.ulRecordCount : Int))
  { tokens :=
      headerTokens req.object_instance first last more c
        ++ [Token.openTag 4]
        ++ encodeItems info li c
        ++ [Token.closeTag 4]
        ++ (if 0 < firstSeq then [Token.ctxUnsigned 5 firstSeq] else []),
    ItemCount := c,
    FirstSequence := firstSeq,
    flagFirst := first,
    flagLast := last,
    flagMore := more }

/-- Model of `rr_trend_log_encode`.  The instance lookup
(`Trend_Log_Valid_Instance` plus `Trend_Log_Get_Info`) is collapsed into
the `Option LogInfo` argument: both null paths set the same
unknown-object error and return before writing anything. -/
def rr_trend_log_encode : Option LogInfo → RRRequest → Except RRError RRResult
  | none, _ => .error (.object, .unknownObject)
  | some info, req =>
    if info.ulRecordCount = 0 then .ok (emptyResult req.object_instance)
    else
      match resolveRange info req with
      | .error e => .error e
      | .ok .empty => .ok (emptyResult req.object_instance)
      | .ok (.slice li cnt) =>
        if cnt ≤ 0 then .ok (emptyResult req.object_instance)
        else .ok (mainResult info req li cnt)

/-- Number of log records present in a token stream: each encoded record
contributes exactly one opening tag [0]. -/
def numRecords (ts : List Token) : Nat :=
  ts.countP (fun t => t = Token.openTag 0)

end BacnetTL

namespace TLMgr

/-- Timestamp fields of `BACNET_DATE_TIME` as filled by
`get_current_datetime`. -/
structure DateTime where
  year : Nat
  month : Nat
  day : Nat
  wday : Nat
  hour : Nat
  min : Nat
  sec : Nat
  hundredths : Nat
deriving DecidableEq

/-- One stored sample (`TRENDLOG_RECORD`): wall-clock timestamp, the
`float` value carried opaquely as the type parameter `V`, and the status
byte. -/
structure TRecord (V : Type) where
  timestamp : DateTime
  value : V
  status_flags : Nat
deriving DecidableEq

/-- Fields of `TRENDLOG_CONFIG` that the record path reads (`inst`
models the C field `instance`, a Lean keyword).  The remaining config
fields (name, trigger, intervals, `last_value`, `last_log_time`, …) are
not read by `TrendLog_Get_Record` or by the buffer-placement logic of
`TrendLog_Record_Value` and are omitted. -/
structure TConfig where
  inst : Nat
  buffer_size : Nat
  stop_when_full : Bool
  record_count : Nat
  is_running : Bool
deriving DecidableEq

/-- One slot of `TRENDLOG_MANAGER`: its config, its circular buffer
(modelled as an index function over physical slots) and its write
index. -/
structure TSlot (V : Type) where
  config : TConfig
  buffer : Nat → TRecord V
  write_index : Nat

/-- The manager state: the first `count` slots of the parallel arrays
`configs` / `buffers` / `write_index`, in order. -/
structure Manager (V : Type) where
  slots : List (TSlot V)

/-- Model of `find_trendlog_index`: index of the first slot whose config
instance matches (`none` models the return value `-1`). -/
def find_trendlog_index {V : Type} (m : Manager V) (trendlog_instance : Nat) : Option Nat :=
  m.slots.findIdx? (fun s => s.config.inst == trendlog_instance)

/-- Model of `TrendLog_Get_Record`.  `record_null` models passing a null
output pointer; the copied record is returned on success (the `true`
path of the C function), `none` on every `false` path. -/
def TrendLog_Get_Record {V : Type} (m : Manager V)
    (trendlog_instance record_index : Nat) (record_null : Bool) :
    Option (TRecord V) :=
  match find_trendlog_index m trendlog_instance with
  | none => none
  | some idx =>
    if record_null then none
    else
      match m.slots[idx]? with
      | none => none
      | some slot =>
        if slot.config.record_count ≤ record_index then none
        else
          let real_index :=
            if slot.config.record_count < slot.config.buffer_size then record_index
            else (slot.write_index + record_index) % slot.config.buffer_size
          some (slot.buffer real_index)

/-- Model of `TrendLog_Record_Value`: append one sample.  `now` stands
for the wall-clock timestamp taken by `get_current_datetime`.  Returns
the C boolean and the updated manager state. -/
def TrendLog_Record_Value {V : Type} (m : Manager V) (now : DateTime)
    (trendlog_instance : Nat) (value : V) (status_flags : Nat) :
    Bool × Manager V :=
  match find_trendlog_index m trendlog_instance with
  | none => (false, m)
  | some idx =>
    match m.slots[idx]? with
    | none => (false, m)
    | some slot =>
      if !slot.config.is_running then (false, m)
      else if slot.config.stop_when_full
          ∧ slot.config.buffer_size ≤ slot.config.record_count then (false, m)
      else
        let write_idx := slot.write_index
        let slot1 : TSlot V :=
          { config := { slot.config with
              record_count :=
                if slot.config.record_count < slot.config.buffer_size then
                  slot.config.record_count + 1
                else slot.config.record_count },
            buffer := fun i =>
              if i = write_idx then
                { timestamp := now, value := value, status_flags := status_flags }
              else slot.buffer i,
            write_index := (write_idx + 1) % slot.config.buffer_size }
        (true, { slots := m.slots.set idx slot1 })

/-- A single-log manager right after `TrendLog_Add` of an enabled,
non-stop-when-full config of capacity `B`: zeroed write index and record
count; `init` is the `calloc`-zeroed buffer content. -/
def mkMgr (V : Type) (inst B : Nat) (init : Nat → TRecord V) : Manager V :=
  let cfg : TConfig :=
    { inst := inst, buffer_size := B, stop_when_full := false,
      record_count := 0, is_running := true }
  { slots := [{ config := cfg, buffer := init, write_index := 0 }] }

/-- State after `n` successful appends of values `f 0, …, f (n - 1)`
(all at timestamp `now`, status byte `sf`) to a fresh single-log
manager. -/
def appendN (V : Type) (inst B : Nat) (init : Nat → TRecord V) (now : DateTime)
    (sf : Nat) (f : Nat → V) : Nat → Manager V
  | 0 => mkMgr V inst B init
  | n + 1 => (TrendLog_Record_Value (appendN V inst B init now sf f n) now inst (f n) sf).2

end TLMgr

namespace BacnetTL

/-- Record accessor of the concrete test logs: logical index `i` holds a
record with timestamp `i`. -/
def wGets (rc : Nat) : Int → Option TLRec :=
  fun i => if 0 ≤ i ∧ i < (rc : Int) then some ⟨i, .unsign 7, 5⟩ else none

/-- Concrete test log. -/
def wInfo (rc total : Nat) : LogInfo :=
  { ulRecordCount := rc, ulTotalRecordCount := total, gets := wGets rc }

/-- Concrete test log in which logical index 1 fails to fetch. -/
def wInfoGap : LogInfo :=
  { ulRecordCount := 3, ulTotalRecordCount := 5,
    gets := fun i => if i = 1 then none else wGets 3 i }

/-- Concrete by-position request. -/
def wReqPos (idx : Nat) (cnt : Int) : RRRequest :=
  { object_instance := 9, RequestType := .byPosition, RefIndex := idx,
    RefTime := 0, RefSeqNum := 0, Count := cnt }

/-- Concrete by-time request. -/
def wReqTime (t cnt : Int) : RRRequest :=
  { object_instance := 9, RequestType := .byTime, RefIndex := 0,
    RefTime := t, RefSeqNum := 0, Count := cnt }

/-- Concrete by-sequence request. -/
def wReqSeq (seq : Nat) (cnt : Int) : RRRequest :=
  { object_instance := 9, RequestType := .bySequence, RefIndex := 0,
    RefTime := 0, RefSeqNum := seq, Count := cnt }

/-- Success-result extractor used by the concrete witnesses. -/
def okResult (x : Except RRError RRResult) : RRResult :=
  x.toOption.getD ⟨[], 0, 0, false, false, false⟩

end BacnetTL

namespace TLMgr

/-- Point update of a circular buffer: the write
`trendlog_manager.buffers[idx][write_idx] = record`. -/
def updBuf (V : Type) (buf : Nat → TRecord V) (wi : Nat) (rec0 : TRecord V) :
    Nat → TRecord V :=
  fun i => if i = wi then rec0 else buf i

/-- Concrete timestamp for the witnesses. -/
def wNow : DateTime := ⟨2025, 1, 1, 3, 12, 0, 0, 0⟩

/-- Concrete zeroed buffer content for the witnesses. -/
def wInit : Nat → TRecord Nat := fun _ => ⟨wNow, 0, 0⟩

/-- Single-log manager of capacity 2 after 5 appends of the values
10, 11, 12, 13, 14: the live records are 13 and 14. -/
def wMgrAfter : Manager Nat := appendN Nat 7 2 wInit wNow 0 (fun k => k + 10) 5

/-- The single slot of `wMgrAfter`. -/
def wSlotAfter : TSlot Nat :=
  wMgrAfter.slots.headD ⟨⟨0, 0, false, 0, false⟩, wInit, 0⟩

end TLMgr

namespace BacnetTL

theorem toInt32_of_lt (n : Nat) (h : n < 2 ^ 31) : toInt32 n = n := by
  unfold toInt32
  rw [Nat.mod_eq_of_lt (by omega)]
  rw [if_pos h]

theorem toInt32_of_ge (n : Nat) (h1 : 2 ^ 31 ≤ n) (h2 : n < 2 ^ 32) :
    toInt32 n = (n : Int) - 2 ^ 32 := by
  unfold toInt32
  rw [Nat.mod_eq_of_lt h2, if_neg (by omega)]

theorem neg32_of_ne (c : Int) (h : c ≠ -(2 ^ 31)) : neg32 c = -c := by
  unfold neg32
  rw [if_neg h]

theorem rr_ok_of_resolve (info : LogInfo) (req : RRRequest) (li cnt : Int)
    (hrc : info.ulRecordCount ≠ 0)
    (hres : resolveRange info req = .ok (.slice li cnt)) (hcnt : 0 < cnt) :
    rr_trend_log_encode (some info) req = .ok (mainResult info req li cnt) := by
  simp only [rr_trend_log_encode, hres, if_neg hrc]
  rw [if_neg (by omega : ¬ cnt ≤ 0)]

theorem rr_error_of_resolve (info : LogInfo) (req : RRRequest) (e : RRError)
    (hrc : info.ulRecordCount ≠ 0)
    (hres : resolveRange info req = .error e) :
    rr_trend_log_encode (some info) req = .error e := by
  simp only [rr_trend_log_encode, hres, if_neg hrc]

theorem rr_empty_of_resolve (info : LogInfo) (req : RRRequest)
    (hrc : info.ulRecordCount ≠ 0)
    (hres : resolveRange info req = .ok .empty) :
    rr_trend_log_encode (some info) req = .ok (emptyResult req.object_instance) := by
  simp only [rr_trend_log_encode, hres, if_neg hrc]

/-- C1: on a valid trend-log instance whose log is empty
(`record_count == 0`), every ReadRange request succeeds with the
empty-result shape: `ItemCount = 0`, `FirstSequence = 0`, result flags
first = last = true and more = false, and a header with item count 0
followed by an immediately closed item-data tag — a positive encoded
length, not an error. -/
theorem rr_empty_log_success (info : LogInfo) (req : RRRequest)
    (hrc : info.ulRecordCount = 0) :
    rr_trend_log_encode (some info) req = .ok (emptyResult req.object_instance) ∧
    (emptyResult req.object_instance).ItemCount = 0 ∧
    (emptyResult req.object_instance).FirstSequence = 0 ∧
    (emptyResult req.object_instance).flagFirst = true ∧
    (emptyResult req.object_instance).flagLast = true ∧
    (emptyResult req.object_instance).flagMore = false ∧
    (emptyResult req.object_instance).tokens =
      headerTokens req.object_instance true true false 0
        ++ [Token.openTag 4, Token.closeTag 4] ∧
    0 < (emptyResult req.object_instance).tokens.length := by
  refine ⟨?_, rfl, rfl, rfl, rfl, rfl, rfl, by simp [emptyResult, headerTokens]⟩
  simp only [rr_trend_log_encode, if_pos hrc]

theorem rr_empty_log_success_witness :
    (wInfo 0 0).ulRecordCount = 0 ∧
    rr_trend_log_encode (some (wInfo 0 0)) (wReqPos 1 1) = .ok (emptyResult 9) :=
  ⟨rfl, (rr_empty_log_success (wInfo 0 0) (wReqPos 1 1) rfl).1⟩

/-- C3: whenever a request on a non-empty log resolves to a slice with
positive count, the result flags set by the encoder are exactly
first_item = (log_index == 0),
last_item = (log_index + count ≥ record_count) and
more_items = (log_index + count < record_count). -/
theorem rr_result_flags (info : LogInfo) (req : RRRequest) (li cnt : Int)
    (hrc : 0 < info.ulRecordCount)
    (hres : resolveRange info req = .ok (.slice li cnt)) (hcnt : 0 < cnt)
    (r : RRResult) (he : rr_trend_log_encode (some info) req = .ok r) :
    r.flagFirst = decide (li = 0) ∧
    r.flagLast = decide ((info.ulRecordCount : Int) ≤ li + cnt) ∧
    r.flagMore = decide (li + cnt < (info.ulRecordCount : Int)) := by
  have h := rr_ok_of_resolve info req li cnt (by omega) hres hcnt
  rw [he] at h
  injection h with h2
  subst h2
  exact ⟨rfl, rfl, rfl⟩

theorem rr_result_flags_witness :
    (okResult (rr_trend_log_encode (some (wInfo 5 7)) (wReqPos 2 2))).flagFirst = false ∧
    (okResult (rr_trend_log_encode (some (wInfo 5 7)) (wReqPos 2 2))).flagLast = false ∧
    (okResult (rr_trend_log_encode (some (wInfo 5 7)) (wReqPos 2 2))).flagMore = true :=
  rr_result_flags (wInfo 5 7) (wReqPos 2 2) 1 2 (by decide) (by rfl) (by decide)
    (okResult (rr_trend_log_encode (some (wInfo 5 7)) (wReqPos 2 2))) (by rfl)

/-- C4: a by-position request on a valid non-empty log whose 1-based
reference index lies outside `[1, record_count]` fails with error class
PROPERTY and code INVALID_ARRAY_INDEX; every error path of the source
returns before the first `encode_*` call, so no output byte is
written. -/
theorem rr_by_position_invalid_index (info : LogInfo) (req : RRRequest)
    (hwf : info.wf) (hidx : req.RefIndex < 2 ^ 32)
    (hrc : 0 < info.ulRecordCount)
    (hty : req.RequestType = .byPosition)
    (hout : req.RefIndex = 0 ∨ info.ulRecordCount < req.RefIndex) :
    rr_trend_log_encode (some info) req =
      .error (.property, .invalidArrayIndex) := by
  have hresolve : resolveRange info req = .error (.property, .invalidArrayIndex) := by
    unfold resolveRange
    rw [hty]
    have hcond : toInt32 req.RefIndex < 1 ∨ (info.ulRecordCount : Int) < toInt32 req.RefIndex := by
      rcases hout with h0 | hbig
      · left
        rw [h0, toInt32_of_lt 0 (by omega)]
        omega
      · by_cases hsmall : req.RefIndex < 2 ^ 31
        · right
          rw [toInt32_of_lt _ hsmall]
          exact_mod_cast hbig
        · left
          rw [toInt32_of_ge _ (by omega) hidx]
          have : (req.RefIndex : Int) < 2 ^ 32 := by exact_mod_cast hidx
          omega
    rw [if_pos hcond]
  exact rr_error_of_resolve info req _ (by omega) hresolve

theorem rr_by_position_invalid_index_witness :
    rr_trend_log_encode (some (wInfo 5 7)) (wReqPos 6 1) =
      .error (.property, .invalidArrayIndex) :=
  rr_by_position_invalid_index (wInfo 5 7) (wReqPos 6 1) (by constructor <;> decide)
    (by decide) (by decide) (by rfl) (by decide)

/-- C5: a by-position request with reference index `p ∈ [1, record_count]`
and negative count `-n` (`n > 0`) resolves to the slice that ends at the
reference record and extends backward `min n p` records, i.e. covers the
0-based indices `[p - min n p, p - 1]`; in particular
`index = record_count`, `count = -3` on a log of at least 3 records
selects the last 3 records. -/
theorem rr_by_position_negative_count (info : LogInfo) (req : RRRequest) (p n : Nat)
    (hwf : info.wf) (hty : req.RequestType = .byPosition)
    (hp : req.RefIndex = p) (h1 : 1 ≤ p) (h2 : p ≤ info.ulRecordCount)
    (hcnt : req.Count = -(n : Int)) (hn : 0 < n) (hn31 : n < 2 ^ 31) :
    resolveRange info req =
      .ok (.slice ((p : Int) - ((min n p : Nat) : Int)) ((min n p : Nat) : Int)) ∧
    (p = info.ulRecordCount → n = 3 → 3 ≤ info.ulRecordCount →
      resolveRange info req =
        .ok (.slice ((info.ulRecordCount : Int) - 3) 3)) := by
  have hlt : p < 2 ^ 31 := lt_of_le_of_lt h2 hwf.1
  have hres : resolveRange info req =
      .ok (.slice ((p : Int) - ((min n p : Nat) : Int)) ((min n p : Nat) : Int)) := by
    simp only [resolveRange, hty, hp, hcnt]
    rw [toInt32_of_lt p hlt]
    rw [if_neg (by omega)]
    rw [if_pos (by omega)]
    rw [neg32_of_ne _ (by intro h; omega)]
    rcases le_or_lt (n : Int) ((p : Int) - 1 + 1) with hle | hgt
    · rw [if_neg (by omega)]
      rw [Nat.min_eq_left (by omega)]
      simp only [Except.ok.injEq, Resolved.slice.injEq, neg_neg]
      exact ⟨by ring, trivial⟩
    · rw [if_pos (by omega)]
      rw [Nat.min_eq_right (by omega)]
      simp only [Except.ok.injEq, Resolved.slice.injEq, neg_neg]
      exact ⟨by ring, by ring⟩
  refine ⟨hres, fun hpc hn3 hrc3 => ?_⟩
  rw [hres, hpc, hn3]
  rw [Nat.min_eq_left (by omega)]
  norm_num

theorem rr_by_position_negative_count_witness :
    resolveRange (wInfo 5 7) (wReqPos 5 (-3)) = .ok (.slice 2 3) :=
  ((rr_by_position_negative_count (wInfo 5 7) (wReqPos 5 (-3)) 5 3
    (by constructor <;> decide) (by rfl) (by rfl) (by decide) (by decide)
    (by rfl) (by decide) (by decide)).2 (by rfl) (by rfl) (by decide))

theorem scanFwdAux_mem_lt (info : LogInfo) (ref cnt : Int) :
    ∀ (fuel i : Nat) (acc : Option (Nat × Nat)) (s e : Nat),
    (acc = none ∨ ∃ s0 e0, acc = some (s0, e0) ∧ s0 < i ∧ e0 < i) →
    scanFwdAux info ref cnt fuel i acc = some (s, e) →
    s < i + fuel ∧ e < i + fuel := by
  intro fuel
  induction fuel with
  | zero =>
    intro i acc s e hacc hscan
    rcases hacc with h | ⟨s0, e0, h, hs0, he0⟩
    · rw [h] at hscan; exact absurd hscan (by simp [scanFwdAux])
    · rw [h] at hscan
      simp only [scanFwdAux] at hscan
      cases hscan
      omega
  | succ fuel ih =>
    intro i acc s e hacc hscan
    rcases hacc with rfl | ⟨s0, e0, rfl, hs0, he0⟩
    · simp only [scanFwdAux] at hscan
      split at hscan
      · have := ih (i + 1) none s e (Or.inl rfl) hscan
        omega
      · split at hscan
        · split at hscan
          · cases hscan
            omega
          · have := ih (i + 1) (some (i, i)) s e
              (Or.inr ⟨i, i, rfl, by omega, by omega⟩) hscan
            omega
        · have := ih (i + 1) none s e (Or.inl rfl) hscan
          omega
    · simp only [scanFwdAux] at hscan
      split at hscan
      · have := ih (i + 1) (some (s0, e0)) s e
          (Or.inr ⟨s0, e0, rfl, by omega, by omega⟩) hscan
        omega
      · split at hscan
        · split at hscan
          · cases hscan
            omega
          · have := ih (i + 1) (some (s0, i)) s e
              (Or.inr ⟨s0, i, rfl, by omega, by omega⟩) hscan
            omega
        · have := ih (i + 1) (some (s0, e0)) s e
            (Or.inr ⟨s0, e0, rfl, by omega, by omega⟩) hscan
          omega

theorem scanBwdAux_mem_lt (info : LogInfo) (ref cnt : Int) (K : Nat) :
    ∀ (k : Nat) (acc : Option (Nat × Nat)) (s e : Nat),
    k ≤ K →
    (acc = none ∨ ∃ s0 e0, acc = some (s0, e0) ∧ s0 < K ∧ e0 < K) →
    scanBwdAux info ref cnt k acc = some (s, e) →
    s < K ∧ e < K := by
  intro k
  induction k with
  | zero =>
    intro acc s e hk hacc hscan
    rcases hacc with h | ⟨s0, e0, h, hs0, he0⟩
    · rw [h] at hscan; exact absurd hscan (by simp [scanBwdAux])
    · rw [h] at hscan
      simp only [scanBwdAux] at hscan
      cases hscan
      omega
  | succ k ih =>
    intro acc s e hk hacc hscan
    rcases hacc with rfl | ⟨s0, e0, rfl, hs0, he0⟩
    · simp only [scanBwdAux] at hscan
      split at hscan
      · exact ih none s e (by omega) (Or.inl rfl) hscan
      · split at hscan
        · split at hscan
          · cases hscan
            omega
          · exact ih (some (k, k)) s e (by omega)
              (Or.inr ⟨k, k, rfl, by omega, by omega⟩) hscan
        · exact ih none s e (by omega) (Or.inl rfl) hscan
    · simp only [scanBwdAux] at hscan
      split at hscan
      · exact ih (some (s0, e0)) s e (by omega)
          (Or.inr ⟨s0, e0, rfl, by omega, by omega⟩) hscan
      · split at hscan
        · split at hscan
          · cases hscan
            omega
          · exact ih (some (k, e0)) s e (by omega)
              (Or.inr ⟨k, e0, rfl, by omega, by omega⟩) hscan
        · exact ih (some (s0, e0)) s e (by omega)
            (Or.inr ⟨s0, e0, rfl, by omega, by omega⟩) hscan

theorem resolve_slice_bounds (info : LogInfo) (req : RRRequest) (li cnt : Int)
    (hrc : 0 < info.ulRecordCount)
    (hres : resolveRange info req = .ok (.slice li cnt)) (hcnt : 0 < cnt) :
    0 ≤ li ∧ li < (info.ulRecordCount : Int) := by
  cases hty : req.RequestType with
  | byPosition =>
    simp only [resolveRange, hty] at hres
    split at hres
    · cases hres
    · split at hres
      · split at hres <;> (injection hres with h; injection h with ha hb) <;> omega
      · split at hres <;> (injection hres with h; injection h with ha hb) <;> omega
  | byTime =>
    simp only [resolveRange, hty] at hres
    split at hres
    · split at hres
      · simp at hres
      · next s e hscan =>
        injection hres with h
        injection h with ha hb
        have := scanBwdAux_mem_lt info req.RefTime (neg32 req.Count)
          info.ulRecordCount info.ulRecordCount none s e (by omega) (Or.inl rfl) hscan
        omega
    · split at hres
      · simp at hres
      · next s e hscan =>
        injection hres with h
        injection h with ha hb
        have := scanFwdAux_mem_lt info req.RefTime req.Count
          info.ulRecordCount 0 none s e (Or.inl rfl) hscan
        omega
  | bySequence =>
    simp only [resolveRange, hty] at hres
    injection hres with h
    injection h with ha hb
    omega
  | readAll =>
    simp only [resolveRange, hty] at hres
    cases hres

/-- C2: every request resolved to a non-empty slice gets
`FirstSequence = total_record_count - record_count + log_index + 1`;
and for a fixed resolved slice the value strictly increases as
`total_record_count` grows while `record_count` stays capped, so
sequence numbers keep increasing across buffer wraparound. -/
theorem rr_first_sequence (info1 info2 : LogInfo) (req : RRRequest)
    (li cnt : Int) (r1 r2 : RRResult)
    (hwf1 : info1.wf) (hwf2 : info2.wf)
    (hrc1 : 0 < info1.ulRecordCount) (hrc2 : 0 < info2.ulRecordCount)
    (htot1 : info1.ulRecordCount ≤ info1.ulTotalRecordCount)
    (htot2 : info2.ulRecordCount ≤ info2.ulTotalRecordCount)
    (hres1 : resolveRange info1 req = .ok (.slice li cnt))
    (hres2 : resolveRange info2 req = .ok (.slice li cnt))
    (hcnt : 0 < cnt)
    (he1 : rr_trend_log_encode (some info1) req = .ok r1)
    (he2 : rr_trend_log_encode (some info2) req = .ok r2)
    (hsame : info2.ulRecordCount = info1.ulRecordCount)
    (hgrow : info1.ulTotalRecordCount < info2.ulTotalRecordCount) :
    r1.FirstSequence =
      info1.ulTotalRecordCount - info1.ulRecordCount + li.toNat + 1 ∧
    r2.FirstSequence =
      info2.ulTotalRecordCount - info2.ulRecordCount + li.toNat + 1 ∧
    r1.FirstSequence < r2.FirstSequence := by
  have hb1 := resolve_slice_bounds info1 req li cnt hrc1 hres1 hcnt
  have hb2 := resolve_slice_bounds info2 req li cnt hrc2 hres2 hcnt
  have h1 := rr_ok_of_resolve info1 req li cnt (by omega) hres1 hcnt
  have h2 := rr_ok_of_resolve info2 req li cnt (by omega) hres2 hcnt
  rw [he1] at h1
  rw [he2] at h2
  injection h1 with h1e
  injection h2 with h2e
  subst h1e
  subst h2e
  have hf1 : (mainResult info1 req li cnt).FirstSequence =
      (info1.ulTotalRecordCount + 2 ^ 32 - info1.ulRecordCount + li.toNat + 1) % 2 ^ 32 := rfl
  have hf2 : (mainResult info2 req li cnt).FirstSequence =
      (info2.ulTotalRecordCount + 2 ^ 32 - info2.ulRecordCount + li.toNat + 1) % 2 ^ 32 := rfl
  rw [hf1, hf2]
  have hlin1 : li.toNat < info1.ulRecordCount := by omega
  have hlin2 : li.toNat < info2.ulRecordCount := by omega
  have hwf1t := hwf1.2
  have hwf2t := hwf2.2
  constructor
  · omega
  constructor
  · omega
  · omega

theorem scanFwdAux_none_of_no_match (info : LogInfo) (ref cnt : Int) :
    ∀ (fuel i : Nat),
    (∀ j : Nat, i ≤ j → j < i + fuel → ∀ r, info.gets (j : Int) = some r →
      r.tTimeStamp < ref) →
    scanFwdAux info ref cnt fuel i none = none := by
  intro fuel
  induction fuel with
  | zero => intro i _; simp [scanFwdAux]
  | succ fuel ih =>
    intro i hno
    rcases hget : info.gets (i : Int) with _ | r
    · simp only [scanFwdAux, hget]
      exact ih (i + 1) (fun j h1 h2 r hr => hno j (by omega) (by omega) r hr)
    · simp only [scanFwdAux, hget]
      rw [if_neg (show ¬ ref ≤ r.tTimeStamp by
        have := hno i (by omega) (by omega) r hget; omega)]
      exact ih (i + 1) (fun j h1 h2 r2 hr => hno j (by omega) (by omega) r2 hr)

theorem scanBwdAux_none_of_no_match (info : LogInfo) (ref cnt : Int) :
    ∀ (k : Nat),
    (∀ j : Nat, j < k → ∀ r, info.gets (j : Int) = some r →
      ref < r.tTimeStamp) →
    scanBwdAux info ref cnt k none = none := by
  intro k
  induction k with
  | zero => intro _; simp [scanBwdAux]
  | succ k ih =>
    intro hno
    rcases hget : info.gets (k : Int) with _ | r
    · simp only [scanBwdAux, hget]
      exact ih (fun j h1 r hr => hno j (by omega) r hr)
    · simp only [scanBwdAux, hget]
      rw [if_neg (show ¬ r.tTimeStamp ≤ ref by
        have := hno k (by omega) r hget; omega)]
      exact ih (fun j h1 r2 hr => hno j (by omega) r2 hr)

/-- C6: a by-time request on a non-empty log for which no record matches
the time predicate (no timestamp `≥` the reference for a forward scan,
none `≤` it for a backward scan) succeeds with the empty-result shape —
item count 0, first sequence 0, flags first = last = true, more = false,
empty item data — not an error. -/
theorem rr_by_time_no_match_empty (info : LogInfo) (req : RRRequest)
    (hrc : 0 < info.ulRecordCount) (hty : req.RequestType = .byTime)
    (hno : (0 ≤ req.Count ∧ ∀ j : Nat, j < info.ulRecordCount →
              ∀ r, info.gets (j : Int) = some r → r.tTimeStamp < req.RefTime)
         ∨ (req.Count < 0 ∧ ∀ j : Nat, j < info.ulRecordCount →
              ∀ r, info.gets (j : Int) = some r → req.RefTime < r.tTimeStamp)) :
    rr_trend_log_encode (some info) req = .ok (emptyResult req.object_instance) ∧
    (emptyResult req.object_instance).ItemCount = 0 ∧
    (emptyResult req.object_instance).FirstSequence = 0 ∧
    (emptyResult req.object_instance).flagFirst = true ∧
    (emptyResult req.object_instance).flagLast = true ∧
    (emptyResult req.object_instance).flagMore = false := by
  refine ⟨?_, rfl, rfl, rfl, rfl, rfl⟩
  have hresolve : resolveRange info req = .ok .empty := by
    simp only [resolveRange, hty]
    rcases hno with ⟨hpos, hmiss⟩ | ⟨hneg, hmiss⟩
    · rw [if_neg (by omega)]
      rw [scanFwdAux_none_of_no_match info req.RefTime req.Count
        info.ulRecordCount 0 (fun j h1 h2 r hr => hmiss j (by omega) r hr)]
    · rw [if_pos hneg]
      rw [scanBwdAux_none_of_no_match info req.RefTime (neg32 req.Count)
        info.ulRecordCount (fun j h1 r hr => hmiss j h1 r hr)]
  exact rr_empty_of_resolve info req (by omega) hresolve

theorem rr_by_time_no_match_empty_witness :
    rr_trend_log_encode (some (wInfo 3 3)) (wReqTime 99 2) = .ok (emptyResult 9) :=
  (rr_by_time_no_match_empty (wInfo 3 3) (wReqTime 99 2) (by decide) (by rfl)
    (Or.inl ⟨by decide, by
      intro j hj r hr
      have hj3 : j < 3 := hj
      interval_cases j <;> (injection hr with h; rw [← h]; decide)⟩)).1

theorem scanFwdAux_all_match (info : LogInfo) (ref : Int) (rc : Nat)
    (hall : ∀ j : Nat, j < rc →
      ∃ r, info.gets (j : Int) = some r ∧ ref ≤ r.tTimeStamp) :
    ∀ (fuel i : Nat) (acc : Option (Nat × Nat)), i + fuel = rc → i < rc →
    ((i = 0 ∧ acc = none) ∨ (0 < i ∧ acc = some (0, i - 1))) →
    scanFwdAux info ref (rc : Int) fuel i acc = some (0, rc - 1) := by
  intro fuel
  induction fuel with
  | zero => intro i acc hif hlt _; omega
  | succ fuel ih =>
    intro i acc hif hlt hpre
    obtain ⟨r, hget, hts⟩ := hall i hlt
    rcases hpre with ⟨rfl, rfl⟩ | ⟨hipos, rfl⟩
    · simp only [scanFwdAux, hget, if_pos hts]
      by_cases hbrk : (rc : Int) ≤ ((0 : Nat) : Int) - ((0 : Nat) : Int) + 1
      · rw [if_pos hbrk]
        simp only [Option.some.injEq, Prod.mk.injEq]
        exact ⟨trivial, by omega⟩
      · rw [if_neg hbrk]
        exact ih 1 (some (0, 0)) (by omega) (by omega) (Or.inr ⟨by omega, rfl⟩)
    · simp only [scanFwdAux, hget, if_pos hts]
      by_cases hbrk : (rc : Int) ≤ ((i : Nat) : Int) - ((0 : Nat) : Int) + 1
      · rw [if_pos hbrk]
        simp only [Option.some.injEq, Prod.mk.injEq]
        exact ⟨trivial, by omega⟩
      · rw [if_neg hbrk]
        exact ih (i + 1) (some (0, i)) (by omega) (by omega)
          (Or.inr ⟨by omega, by simp⟩)

/-- C7: a by-time request with positive count equal to `record_count`
whose reference timestamp is `≤` every record's timestamp resolves to
the full slice `[0, record_count - 1]` and returns every record, with
first_item = last_item = true. -/
theorem rr_by_time_all_match (info : LogInfo) (req : RRRequest) (r : RRResult)
    (hwf : info.wf) (hrc : 0 < info.ulRecordCount)
    (hty : req.RequestType = .byTime)
    (hcount : req.Count = (info.ulRecordCount : Int))
    (hall : ∀ j : Nat, j < info.ulRecordCount →
      ∃ rec0, info.gets (j : Int) = some rec0 ∧ req.RefTime ≤ rec0.tTimeStamp)
    (he : rr_trend_log_encode (some info) req = .ok r) :
    resolveRange info req = .ok (.slice 0 (info.ulRecordCount : Int)) ∧
    r.flagFirst = true ∧ r.flagLast = true ∧
    r.ItemCount = info.ulRecordCount := by
  have hresolve : resolveRange info req = .ok (.slice 0 (info.ulRecordCount : Int)) := by
    simp only [resolveRange, hty, hcount]
    rw [if_neg (by omega)]
    rw [scanFwdAux_all_match info req.RefTime info.ulRecordCount hall
      info.ulRecordCount 0 none (by omega) hrc (Or.inl ⟨rfl, rfl⟩)]
    simp only [Except.ok.injEq, Resolved.slice.injEq]
    omega
  have h := rr_ok_of_resolve info req 0 (info.ulRecordCount : Int) (by omega)
    hresolve (by omega)
  rw [he] at h
  injection h with h2
  subst h2
  refine ⟨hresolve, rfl, ?_, ?_⟩
  · show decide ((info.ulRecordCount : Int) ≤ 0 + (info.ulRecordCount : Int)) = true
    simp
  · show ((info.ulRecordCount : Int)).toNat = info.ulRecordCount
    simp

theorem rr_by_time_all_match_witness :
    resolveRange (wInfo 3 3) (wReqTime 0 3) = .ok (.slice 0 3) ∧
    (okResult (rr_trend_log_encode (some (wInfo 3 3)) (wReqTime 0 3))).flagFirst = true ∧
    (okResult (rr_trend_log_encode (some (wInfo 3 3)) (wReqTime 0 3))).flagLast = true ∧
    (okResult (rr_trend_log_encode (some (wInfo 3 3)) (wReqTime 0 3))).ItemCount = 3 :=
  rr_by_time_all_match (wInfo 3 3) (wReqTime 0 3)
    (okResult (rr_trend_log_encode (some (wInfo 3 3)) (wReqTime 0 3)))
    (by constructor <;> decide) (by decide) (by rfl) (by decide)
    (by
      intro j hj
      have hj3 : j < 3 := hj
      interval_cases j <;> exact ⟨_, rfl, by decide⟩)
    (by rfl)

/-- C8: a by-sequence request is handled as a simplified by-position
read starting at the oldest record: the resolved slice starts at 0-based
index 0 with count `min |Count| record_count`, and the outcome is
independent of the supplied reference sequence number (two by-sequence
requests with the same `Count` resolve identically). -/
theorem rr_by_sequence_from_oldest (info : LogInfo) (req req2 : RRRequest)
    (hrc : 0 < info.ulRecordCount)
    (hty : req.RequestType = .bySequence) (hty2 : req2.RequestType = .bySequence)
    (hc : -(2 ^ 31) < req.Count) (hceq : req2.Count = req.Count) :
    resolveRange info req =
      .ok (.slice 0 ((min req.Count.natAbs info.ulRecordCount : Nat) : Int)) ∧
    resolveRange info req2 = resolveRange info req := by
  constructor
  · simp only [resolveRange, hty]
    by_cases hneg : req.Count < 0
    · rw [if_pos hneg, neg32_of_ne _ (by omega)]
      rcases le_or_lt (-req.Count) ((info.ulRecordCount : Int)) with hle | hgt
      · rw [if_neg (by omega)]
        simp only [Except.ok.injEq, Resolved.slice.injEq, true_and]
        omega
      · rw [if_pos (by omega)]
        simp only [Except.ok.injEq, Resolved.slice.injEq, true_and]
        omega
    · rw [if_neg hneg]
      rcases le_or_lt req.Count ((info.ulRecordCount : Int)) with hle | hgt
      · rw [if_neg (by omega)]
        simp only [Except.ok.injEq, Resolved.slice.injEq, true_and]
        omega
      · rw [if_pos (by omega)]
        simp only [Except.ok.injEq, Resolved.slice.injEq, true_and]
        omega
  · simp only [resolveRange, hty, hty2, hceq]

theorem rr_by_sequence_from_oldest_witness :
    resolveRange (wInfo 5 7) (wReqSeq 2 (-8)) = .ok (.slice 0 5) ∧
    resolveRange (wInfo 5 7) (wReqSeq 100 (-8)) =
      resolveRange (wInfo 5 7) (wReqSeq 2 (-8)) :=
  rr_by_sequence_from_oldest (wInfo 5 7) (wReqSeq 2 (-8)) (wReqSeq 100 (-8))
    (by decide) (by rfl) (by rfl) (by decide) (by rfl)

theorem numRecords_append (l1 l2 : List Token) :
    numRecords (l1 ++ l2) = numRecords l1 + numRecords l2 :=
  List.countP_append _ _ _

theorem numRecords_encodeRecord (r : TLRec) : numRecords (encodeRecord r) = 1 := by
  rcases r with ⟨t, d, s⟩
  cases d <;> rfl

theorem numRecords_encodeItems (info : LogInfo) (li : Int) :
    ∀ cnt : Nat, numRecords (encodeItems info li cnt) =
      ((List.range cnt).filter fun i : Nat => (info.gets (li + (i : Int))).isSome).length := by
  intro cnt
  induction cnt with
  | zero => rfl
  | succ n ih =>
    rw [encodeItems, List.range_succ, List.map_append, List.flatten_append,
      numRecords_append, ← encodeItems, ih, List.filter_append]
    rcases hget : info.gets (li + (n : Int)) with _ | r
    · simp [hget, numRecords]
    · simp only [List.map_cons, List.map_nil, List.flatten_cons, List.flatten_nil,
        List.append_nil, numRecords_encodeRecord, List.filter_cons, hget,
        Option.isSome_some, List.length_append, List.filter_nil]
      simp

theorem numRecords_mainResult (info : LogInfo) (req : RRRequest) (li cnt : Int) :
    numRecords (mainResult info req li cnt).tokens =
      ((List.range cnt.toNat).filter fun i : Nat => (info.gets (li + (i : Int))).isSome).length := by
  simp only [mainResult]
  rw [numRecords_append, numRecords_append, numRecords_append, numRecords_append]
  have h1 : numRecords (headerTokens req.object_instance (decide (li = 0))
      (decide ((info.ulRecordCount : Int) ≤ li + cnt))
      (decide (li + cnt < (info.ulRecordCount : Int))) cnt.toNat) = 0 := rfl
  have h2 : numRecords [Token.openTag 4] = 0 := rfl
  have h3 : numRecords [Token.closeTag 4] = 0 := rfl
  have h4 : ∀ c : Prop, ∀ h : Decidable c, ∀ v : Nat,
      numRecords (if c then [Token.ctxUnsigned 5 v] else []) = 0 := by
    intro c h v
    split <;> rfl
  rw [h1, h2, h3, h4, numRecords_encodeItems]
  omega

/-- C9: when the encoder has resolved a non-empty slice and some logical
index inside the slice fails to fetch, the whole response still succeeds
— the failed record is skipped and every remaining fetchable record of
the slice is encoded — so the item data holds exactly the fetchable
records and fewer records than requested. -/
theorem rr_fetch_failure_skips (info : LogInfo) (req : RRRequest)
    (li cnt : Int) (r : RRResult) (i0 : Nat)
    (hrc : info.ulRecordCount ≠ 0)
    (hres : resolveRange info req = .ok (.slice li cnt)) (hcnt : 0 < cnt)
    (he : rr_trend_log_encode (some info) req = .ok r)
    (hi0 : i0 < cnt.toNat) (hfail : info.gets (li + (i0 : Int)) = none) :
    numRecords r.tokens =
      ((List.range cnt.toNat).filter fun i : Nat => (info.gets (li + (i : Int))).isSome).length ∧
    numRecords r.tokens < cnt.toNat := by
  have h := rr_ok_of_resolve info req li cnt hrc hres hcnt
  rw [he] at h
  injection h with h2
  subst h2
  have heq := numRecords_mainResult info req li cnt
  refine ⟨heq, ?_⟩
  rw [heq]
  have hlt : ((List.range cnt.toNat).filter
      fun i : Nat => (info.gets (li + (i : Int))).isSome).length <
      (List.range cnt.toNat).length := by
    apply List.length_filter_lt_length_iff_exists.mpr
    exact ⟨i0, List.mem_range.mpr hi0, by simp [hfail]⟩
  simpa using hlt

theorem rr_fetch_failure_skips_witness :
    wInfoGap.gets 1 = none ∧
    numRecords (okResult (rr_trend_log_encode (some wInfoGap) (wReqPos 1 3))).tokens < 3 :=
  ⟨rfl, (rr_fetch_failure_skips wInfoGap (wReqPos 1 3) 0 3
    (okResult (rr_trend_log_encode (some wInfoGap) (wReqPos 1 3))) 1
    (by decide) (by rfl) (by decide) (by rfl) (by decide) (by rfl)).2⟩

theorem rr_first_sequence_witness :
    (okResult (rr_trend_log_encode (some (wInfo 5 7)) (wReqPos 2 2))).FirstSequence = 4 ∧
    (okResult (rr_trend_log_encode (some (wInfo 5 11)) (wReqPos 2 2))).FirstSequence = 8 ∧
    (okResult (rr_trend_log_encode (some (wInfo 5 7)) (wReqPos 2 2))).FirstSequence <
      (okResult (rr_trend_log_encode (some (wInfo 5 11)) (wReqPos 2 2))).FirstSequence :=
  rr_first_sequence (wInfo 5 7) (wInfo 5 11) (wReqPos 2 2) 1 2
    (okResult (rr_trend_log_encode (some (wInfo 5 7)) (wReqPos 2 2)))
    (okResult (rr_trend_log_encode (some (wInfo 5 11)) (wReqPos 2 2)))
    (by constructor <;> decide) (by constructor <;> decide)
    (by decide) (by decide) (by decide) (by decide)
    (by rfl) (by rfl) (by decide) (by rfl) (by rfl) (by rfl) (by decide)

end BacnetTL

namespace TLMgr

theorem findIdx?_some_lt {α : Type} (p : α → Bool) (l : List α) :
    ∀ (s i : Nat), List.findIdx? p l s = some i → s ≤ i ∧ i < s + l.length := by
  induction l with
  | nil => intro s i h; simp [List.findIdx?] at h
  | cons x xs ih =>
    intro s i h
    rw [List.findIdx?_cons] at h
    by_cases hp : p x
    · rw [if_pos hp] at h
      injection h with h
      simp only [List.length_cons]
      omega
    · rw [if_neg hp] at h
      have := ih (s + 1) i h
      simp only [List.length_cons]
      omega

theorem find_trendlog_index_singleton {V : Type} (slot : TSlot V) (inst0 : Nat)
    (h : slot.config.inst = inst0) :
    find_trendlog_index ⟨[slot]⟩ inst0 = some 0 := by
  simp [find_trendlog_index, List.findIdx?_cons, h]

theorem Record_Value_singleton (V : Type) (inst0 B rc : Nat) (buf : Nat → TRecord V)
    (wi : Nat) (now : DateTime) (value : V) (sf : Nat) :
    TrendLog_Record_Value ⟨[⟨⟨inst0, B, false, rc, true⟩, buf, wi⟩]⟩ now inst0 value sf =
      (true, ⟨[⟨⟨inst0, B, false, (if rc < B then rc + 1 else rc), true⟩,
        updBuf V buf wi ⟨now, value, sf⟩, (wi + 1) % B⟩]⟩) := by
  unfold updBuf
  simp [TrendLog_Record_Value, find_trendlog_index, List.findIdx?_cons]

theorem Get_Record_singleton (V : Type) (cfg : TConfig) (buf : Nat → TRecord V)
    (wi inst0 j : Nat) (hinst : cfg.inst = inst0) (hj : j < cfg.record_count) :
    TrendLog_Get_Record ⟨[⟨cfg, buf, wi⟩]⟩ inst0 j false =
      some (buf (if cfg.record_count < cfg.buffer_size then j
        else (wi + j) % cfg.buffer_size)) := by
  simp [TrendLog_Get_Record, find_trendlog_index, List.findIdx?_cons, hinst,
    Nat.not_le.mpr hj]

theorem appendN_spec (V : Type) (inst B : Nat) (init : Nat → TRecord V)
    (now : DateTime) (sf : Nat) (f : Nat → V) (hB : 0 < B) :
    ∀ n : Nat, ∃ buf : Nat → TRecord V,
      (appendN V inst B init now sf f n).slots =
        [⟨⟨inst, B, false, min n B, true⟩, buf, n % B⟩] ∧
      ∀ j : Nat, j < min n B →
        buf (if min n B < B then j else (n % B + j) % B) =
          ⟨now, f (n - min n B + j), sf⟩ := by
  intro n
  induction n with
  | zero =>
    refine ⟨init, ?_, fun j hj => absurd hj (by omega)⟩
    simp [appendN, mkMgr, Nat.zero_mod]
  | succ n ih =>
    obtain ⟨buf, hslots, hbuf⟩ := ih
    rcases hA : appendN V inst B init now sf f n with ⟨slots0⟩
    rw [hA] at hslots
    replace hslots : slots0 = [⟨⟨inst, B, false, min n B, true⟩, buf, n % B⟩] := hslots
    subst hslots
    refine ⟨updBuf V buf (n % B) ⟨now, f n, sf⟩, ?_, ?_⟩
    · simp only [appendN]
      rw [hA, Record_Value_singleton V inst B (min n B) buf (n % B) now (f n) sf]
      have hrcEq : (if min n B < B then min n B + 1 else min n B) = min (n + 1) B := by
        split <;> omega
      have hwiEq : (n % B + 1) % B = (n + 1) % B := (Nat.mod_modEq n B).add_right 1
      show ([⟨⟨inst, B, false, (if min n B < B then min n B + 1 else min n B), true⟩,
          updBuf V buf (n % B) ⟨now, f n, sf⟩, (n % B + 1) % B⟩] : List (TSlot V)) =
        ([⟨⟨inst, B, false, min (n + 1) B, true⟩,
          updBuf V buf (n % B) ⟨now, f n, sf⟩, (n + 1) % B⟩] : List (TSlot V))
      rw [hrcEq, hwiEq]
    · intro j hj
      rcases Nat.lt_or_ge n B with hnB | hnB
      · have hphys : (if min (n + 1) B < B then j else ((n + 1) % B + j) % B) = j := by
          by_cases hc : min (n + 1) B < B
          · rw [if_pos hc]
          · rw [if_neg hc]
            have hb : n + 1 = B := by omega
            have h0 : (n + 1) % B = 0 := by rw [hb]; exact Nat.mod_self B
            rw [h0, Nat.zero_add, Nat.mod_eq_of_lt (show j < B by omega)]
        rw [hphys, updBuf]
        by_cases hjn : j = n
        · rw [if_pos (show j = n % B by rw [hjn, Nat.mod_eq_of_lt hnB])]
          have harg : n + 1 - min (n + 1) B + j = n := by omega
          rw [harg]
        · rw [if_neg (fun hc => hjn (hc.trans (Nat.mod_eq_of_lt hnB)))]
          have hIH := hbuf j (by omega)
          rw [if_pos (by omega : min n B < B)] at hIH
          rw [hIH]
          have harg : n - min n B + j = n + 1 - min (n + 1) B + j := by omega
          rw [harg]
      · have hmin1 : min (n + 1) B = B := by omega
        rw [if_neg (by omega : ¬ min (n + 1) B < B)]
        rw [Nat.mod_add_mod, updBuf]
        by_cases hjB : j = B - 1
        · have h1 : n + 1 + j = n + B := by omega
          rw [h1, Nat.add_mod_right]
          rw [if_pos rfl]
          have harg : n + 1 - min (n + 1) B + j = n := by omega
          rw [harg]
        · have hne : (n + 1 + j) % B ≠ n % B := by
            intro heq
            have hdvd : B ∣ (n + 1 + j) - n := (Nat.modEq_iff_dvd' (by omega)).mp heq.symm
            rw [show n + 1 + j - n = j + 1 from by omega] at hdvd
            have := Nat.le_of_dvd (by omega) hdvd
            omega
          rw [if_neg hne]
          have hIH := hbuf (j + 1) (by omega)
          rw [if_neg (by omega : ¬ min n B < B)] at hIH
          rw [Nat.mod_add_mod] at hIH
          rw [show n + (j + 1) = n + 1 + j from by omega] at hIH
          rw [hIH]
          have harg : n - min n B + (j + 1) = n + 1 - min (n + 1) B + j := by omega
          rw [harg]

/-- C10: `TrendLog_Get_Record` fails (returns `none`, C `false`) exactly
on an unknown instance, a null output pointer, or a logical index `j ≥
record_count`; otherwise it succeeds and copies the record at physical
index `j` while the buffer is not yet full and `(write_index + j) %
buffer_size` once it is — so after any number of appends to a fresh log,
logical index `j` always reads the `j`-th oldest live value, `f (n - min
n B + j)` after `n` appends of `f 0, …, f (n - 1)` into capacity `B`. -/
theorem TrendLog_Get_Record_spec (V : Type) (m : Manager V) (inst j : Nat)
    (nullF : Bool) :
    (find_trendlog_index m inst = none → TrendLog_Get_Record m inst j nullF = none) ∧
    (nullF = true → TrendLog_Get_Record m inst j nullF = none) ∧
    (∀ idx, find_trendlog_index m inst = some idx →
      ∃ slot, m.slots[idx]? = some slot) ∧
    (∀ idx slot, find_trendlog_index m inst = some idx → m.slots[idx]? = some slot →
      (slot.config.record_count ≤ j → TrendLog_Get_Record m inst j nullF = none) ∧
      (j < slot.config.record_count → nullF = false →
        TrendLog_Get_Record m inst j nullF = some (slot.buffer
          (if slot.config.record_count < slot.config.buffer_size then j
           else (slot.write_index + j) % slot.config.buffer_size)))) ∧
    (∀ (B n : Nat) (init : Nat → TRecord V) (now : DateTime) (sf : Nat) (f : Nat → V),
      0 < B → j < min n B →
      TrendLog_Get_Record (appendN V inst B init now sf f n) inst j false =
        some ⟨now, f (n - min n B + j), sf⟩) := by
  refine ⟨?_, ?_, ?_, ?_, ?_⟩
  · intro h
    simp [TrendLog_Get_Record, h]
  · intro h
    subst h
    rcases hf : find_trendlog_index m inst with _ | idx <;>
      simp [TrendLog_Get_Record, hf]
  · intro idx hfind
    have := findIdx?_some_lt _ m.slots 0 idx hfind
    have hlt : idx < m.slots.length := by omega
    exact ⟨m.slots[idx], List.getElem?_eq_getElem hlt⟩
  · intro idx slot hfind hslot
    constructor
    · intro hle
      simp [TrendLog_Get_Record, hfind, hslot, hle, ite_self]
    · intro hlt hnull
      subst hnull
      simp [TrendLog_Get_Record, hfind, hslot, Nat.not_le.mpr hlt]
  · intro B n init now sf f hB hj
    obtain ⟨buf, hslots, hbuf⟩ := appendN_spec V inst B init now sf f hB n
    rcases hA : appendN V inst B init now sf f n with ⟨slots0⟩
    rw [hA] at hslots
    replace hslots : slots0 = [⟨⟨inst, B, false, min n B, true⟩, buf, n % B⟩] := hslots
    subst hslots
    rw [Get_Record_singleton V ⟨inst, B, false, min n B, true⟩ buf (n % B) inst j
      rfl hj]
    rw [hbuf j hj]

theorem TrendLog_Get_Record_spec_witness :
    TrendLog_Get_Record wMgrAfter 7 0 false = some ⟨wNow, 13, 0⟩ ∧
    TrendLog_Get_Record wMgrAfter 7 1 false = some ⟨wNow, 14, 0⟩ ∧
    TrendLog_Get_Record wMgrAfter 7 2 false = none ∧
    TrendLog_Get_Record wMgrAfter 7 0 true = none := by
  refine ⟨?_, ?_, ?_, ?_⟩
  · exact (TrendLog_Get_Record_spec Nat wMgrAfter 7 0 false).2.2.2.2
      2 5 wInit wNow 0 (fun k => k + 10) (by decide) (by decide)
  · exact (TrendLog_Get_Record_spec Nat wMgrAfter 7 1 false).2.2.2.2
      2 5 wInit wNow 0 (fun k => k + 10) (by decide) (by decide)
  · exact ((TrendLog_Get_Record_spec Nat wMgrAfter 7 2 false).2.2.2.1
      0 wSlotAfter (by rfl) (by rfl)).1 (by decide)
  · exact (TrendLog_Get_Record_spec Nat wMgrAfter 7 0 true).2.1 rfl

end TLMgr
